import Mathlib

/-!
Shallow embedding of the ComicStreamer library monitor
(`comicstreamerlib/monitor.py`), covering the full-scan reconciliation
(`Monitor.dofullScan`, `Monitor.createAddRemoveLists`,
`Monitor.commitMetadataList`, `Monitor.getComicMetadata`) and the
debounce logic (`Monitor.handleSingleEvent` / `handleEventProcessing`).

External collaborators (the Catalog / `Library`, the comic-archive
reader, the filesystem) are modelled as explicit data:
* the filesystem is a `Disk` (set of existing files with mtimes and a
  predicate deciding whether a path lies under some watch root);
* the archive reader / metadata extractor is a function
  `String → FileOutcome` giving the deterministic per-file behaviour of
  `getComicMetadata` (not recognized, recognized-and-extracted, or
  raising an exception before/after the `read_count` increment);
* the Catalog is the `catalog` field of the scan state, a list of
  (comic_id, path, mod_ts) records; bulk deletes and bulk inserts are
  recorded in an instrumentation trace so that the number, order and
  sizes of the Catalog calls made by one `dofullScan` can be observed;
* possible failures of the Catalog bulk-insert (`Library.addComics`)
  are driven by an oracle `insFails : Nat → Bool` indexed by the number
  of insert calls attempted so far in this scan;
* the monitor's `quit` flag, set asynchronously by `Monitor.stop`, is
  modelled as `quitF : Nat → Bool`: the value observed at the per-file
  cancellation checkpoint of the i-th candidate file (and at the final
  commit for index `filelist.length`).

Timestamps are naturals (seconds); page images/thumbnails are byte
lists; comic ids are naturals assigned sequentially by the Catalog.
-/

namespace ComicMonitor

/-- A record stored in the Catalog: the `(comic_id, path, mod_ts)`
triples returned by `library.getComicPaths()`. -/
structure CatRec where
  id : Nat
  path : String
  mod_ts : Nat
deriving DecidableEq, Repr

/-- The transient per-file metadata value built by `getComicMetadata`. -/
structure Md where
  path : String
  page_count : Nat
  mod_ts : Nat
  filesize : Nat
  hash : String
  thumbnail : List Nat
deriving DecidableEq, Repr

/-- Deterministic behaviour of the archive reader on one path, as seen
by `Monitor.getComicMetadata`:
* `earlyErr`: an exception is raised before the `read_count` increment
  (e.g. in the `ComicArchive` constructor or `seemsToBeAComicArchive`);
* `notComic`: `seemsToBeAComicArchive()` is false — the file is skipped
  without error and `getComicMetadata` returns `None`;
* `comicErr`: the file is recognized (so `read_count` is incremented)
  but a later step (tag reading, `getPage`, resize) raises;
* `comicOk`: extraction succeeds with the given page count, file size
  and thumbnail bytes. -/
inductive FileOutcome where
  | earlyErr : FileOutcome
  | notComic : FileOutcome
  | comicErr : FileOutcome
  | comicOk (page_count : Nat) (filesize : Nat) (thumbnail : List Nat) : FileOutcome
deriving DecidableEq, Repr

/-- The filesystem as the scan observes it: the set of existing regular
files, their modification times, and which paths lie under some watch
root (`utils.get_recursive_filelist(dirs)` enumerates exactly the
existing files under the roots). -/
structure Disk where
  allFiles : List String
  mtime : String → Nat
  inRoot : String → Bool

/-- One bulk Catalog mutation made during a scan:
`del ids` is the single `library.deleteComics(to_remove)` call,
`ins n` is a `library.addComics(comics)` call carrying `n` records
(recorded also when the call raises). -/
inductive CatOp where
  | del (ids : List Nat) : CatOp
  | ins (size : Nat) : CatOp
deriving DecidableEq, Repr

/-- Monitor state touched by `dofullScan`, plus the Catalog contents and
per-call instrumentation (`trace` of Catalog calls, `classified` list of
paths handed to `getComicMetadata`, `insCalls` counter of attempted
bulk-insert calls; these three are reset at the start of each scan). -/
structure ScanState where
  status : String
  statusdetail : String
  scancomplete_ts : Option Nat
  add_count : Nat
  remove_count : Nat
  read_count : Nat
  catalog : List CatRec
  nextId : Nat
  insCalls : Nat
  trace : List CatOp
  classified : List String
deriving DecidableEq, Repr

/-- How one `dofullScan` invocation ended: ran to the end of the
function, returned early at the cancellation checkpoint, or was left by
a propagating exception. -/
inductive ScanOutcome where
  | completed : ScanOutcome
  | halted : ScanOutcome
  | raised : ScanOutcome
deriving DecidableEq, Repr

def haltMsg : String := "Monitor: halting scan!"

def makingListMsg : String := "Monitor: Making a list of all files in the folders..."

def removingMsg (n : Nat) : String :=
  "Monitor: Removing missing or modified files from db (" ++ toString n ++ " files)"

def newFilesMsg (n : Nat) : String :=
  "Monitor: " ++ toString n ++ " new files to scan..."

def progressMsg (total read added : Nat) : String :=
  "Monitor: " ++ toString total ++ " files: " ++ toString read ++
    " scanned, " ++ toString added ++ " added to library..."

def finishedMsg (read total : Nat) : String :=
  "Monitor: finished scanning metadata in " ++ toString read ++ " of " ++
    toString total ++ " files"

/-- The `ix` dictionary of `createAddRemoveLists`: built by assigning
`ix[path] = comic_id` while iterating `getComicPaths()` in order, so a
later record with the same path overwrites an earlier one; lookup of a
path not in the dictionary is modelled as 0 (a `KeyError` cannot happen
at the use site). -/
def ixOf (db : List CatRec) (p : String) : Nat :=
  (db.foldl (fun acc r => if r.path = p then some r.id else acc) (none : Option Nat)).getD 0

/-- The `current_set` built by `createAddRemoveLists`: the `(path,
mtime)` pair of every file enumerated under the roots, as a Python
`set` (modelled as a deduplicated list). -/
def currentList (d : Disk) : List (String × Nat) :=
  ((d.allFiles.filter d.inRoot).map (fun p => (p, d.mtime p))).dedup

/-- The `db_set` built by `createAddRemoveLists` from
`library.getComicPaths()`: the stored `(path, mod_ts)` pairs, as a
Python `set`. -/
def dbPairs (db : List CatRec) : List (String × Nat) :=
  (db.map (fun r => (r.path, r.mod_ts))).dedup

/-- `Monitor.createAddRemoveLists(dirs)`: enumerate the files under the
roots into `current_set` of `(path, mtime)` pairs, read the stored
`(path, mod_ts)` pairs into `db_set`, and return the set differences —
the paths to add and, via `ix`, the comic ids to remove. -/
def createAddRemoveLists (d : Disk) (db : List CatRec) : List String × List Nat :=
  let current_set := currentList d
  let db_set := dbPairs db
  let to_add := current_set.filter (fun pr : String × Nat => decide (pr ∉ db_set))
  let to_remove := db_set.filter (fun pr : String × Nat => decide (pr ∉ current_set))
  (to_add.map Prod.fst, to_remove.map (fun pr => ixOf db pr.1))

/-- `Monitor.getComicMetadata(path)`, as a function of the archive
reader's behaviour on the path: returns the updated `read_count`, the
optional metadata, and whether an exception escaped to the caller. -/
def getComicMetadata (d : Disk) (c : String → FileOutcome) (p : String)
    (read_count : Nat) : Nat × Option Md × Bool :=
  match c p with
  | .earlyErr => (read_count, none, true)
  | .notComic => (read_count, none, false)
  | .comicErr => (read_count + 1, none, true)
  | .comicOk pg sz th =>
      (read_count + 1,
       some { path := p, page_count := pg, mod_ts := d.mtime p,
              filesize := sz, hash := "", thumbnail := th },
       false)

/-- Records created by the Catalog from a committed batch:
`library.addComics` persists each metadata value and the Catalog assigns
sequential comic ids starting at the current fresh id. -/
def assignIds : Nat → List Md → List CatRec
  | _, [] => []
  | n, m :: ms => { id := n, path := m.path, mod_ts := m.mod_ts } :: assignIds (n + 1) ms

/-- `library.deleteComics(to_remove)`: one bulk delete of the given
comic ids (recorded in the instrumentation trace). -/
def deleteComics (ids : List Nat) (st : ScanState) : ScanState :=
  { st with catalog := st.catalog.filter (fun r => decide (r.id ∉ ids)),
            trace := st.trace ++ [CatOp.del ids] }

/-- `Monitor.commitMetadataList(md_list)` with the `quit` flag observed
as `q`: per-metadata `add_count` increments with the quit check between
them (on quit, set the halting detail and return before
`library.addComics`), then the bulk-insert call, which raises when the
`insFails` oracle says so (the call is counted and traced either way,
and a raising call persists nothing). Returns the new state and whether
the call raised. -/
def commitMetadataList (insFails : Nat → Bool) (q : Bool) (mds : List Md)
    (st : ScanState) : ScanState × Bool :=
  if q ∧ mds ≠ [] then
    ({ st with add_count := st.add_count + 1, statusdetail := haltMsg }, false)
  else
    let st1 := { st with add_count := st.add_count + mds.length,
                         insCalls := st.insCalls + 1,
                         trace := st.trace ++ [CatOp.ins mds.length] }
    if insFails st.insCalls then (st1, true)
    else ({ st1 with catalog := st1.catalog ++ assignIds st1.nextId mds,
                     nextId := st1.nextId + mds.length }, false)

/-- The per-file loop of `Monitor.dofullScan` over the `filelist`
returned by `createAddRemoveLists`, carrying the in-memory batch buffer
`md_list`. For each file: invoke `getComicMetadata` (an exception is
caught by the per-file handler, skipping the rest of the body), append
any metadata to the buffer, refresh the progress detail, check the
`quit` flag (returning early with the halting message), and at a
`read_count` batch boundary commit the buffer (a raising commit is
caught by the same per-file handler, so the buffer is kept). Returns
the state, the remaining buffer, and whether the loop returned early. -/
def scanLoop (d : Disk) (c : String → FileOutcome) (quitF insFails : Nat → Bool)
    (total : Nat) : List String → Nat → ScanState → List Md → ScanState × List Md × Bool
  | [], _, st, mds => (st, mds, false)
  | f :: fs, i, st, mds =>
    let st0 := { st with classified := st.classified ++ [f] }
    let res := getComicMetadata d c f st0.read_count
    let st1 := { st0 with read_count := res.1 }
    if res.2.2 then
      scanLoop d c quitF insFails total fs (i + 1) st1 mds
    else
      let mds1 := match res.2.1 with
        | some m => mds ++ [m]
        | none => mds
      let st2 := { st1 with statusdetail := progressMsg total st1.read_count st1.add_count }
      if quitF i then
        ({ st2 with statusdetail := haltMsg }, mds1, true)
      else if st2.read_count % 10 = 0 ∧ st2.read_count ≠ 0 ∧ mds1 ≠ [] then
        let cr := commitMetadataList insFails (quitF i) mds1 st2
        if cr.2 then scanLoop d c quitF insFails total fs (i + 1) cr.1 mds1
        else scanLoop d c quitF insFails total fs (i + 1) cr.1 []
      else
        scanLoop d c quitF insFails total fs (i + 1) st2 mds1

/-- The prologue of `Monitor.dofullScan`: set status SCANNING, reset the
counters (and this scan's instrumentation), compute the add/remove
lists, perform the single bulk delete when `to_remove` is non-empty, and
set the progress details. Returns the state and the `filelist` of paths
to scan. -/
def scanPrep (d : Disk) (st0 : ScanState) : ScanState × List String :=
  let st := { st0 with status := "SCANNING",
                       statusdetail := makingListMsg,
                       add_count := 0, remove_count := 0,
                       trace := [], classified := [], insCalls := 0 }
  let lists := createAddRemoveLists d st.catalog
  let st2 := { st with statusdetail := removingMsg lists.2.length }
  let st3 := if 0 < lists.2.length then deleteComics lists.2 st2 else st2
  let st4 := { st3 with statusdetail := newFilesMsg lists.1.length, read_count := 0 }
  (st4, lists.1)

/-- `Monitor.dofullScan(dirs)`: prologue, per-file loop, final commit of
any remaining partial batch (at which point the `quit` flag is observed
as `quitF filelist.length`), then the completion epilogue (finished
detail, status IDLE, detail cleared, `scancomplete_ts` stamped with
`now`). An early cancellation return yields `halted`; an uncaught
exception from the final bulk insert yields `raised` with the epilogue
skipped. -/
def dofullScan (d : Disk) (c : String → FileOutcome) (quitF insFails : Nat → Bool)
    (now : Nat) (st0 : ScanState) : ScanState × ScanOutcome :=
  let prep := scanPrep d st0
  let loopRes := scanLoop d c quitF insFails prep.2.length prep.2 0 prep.1 []
  if loopRes.2.2 then (loopRes.1, .halted)
  else
    let fin :=
      if loopRes.2.1 ≠ [] then
        commitMetadataList insFails (quitF prep.2.length) loopRes.2.1 loopRes.1
      else (loopRes.1, false)
    if fin.2 then (fin.1, .raised)
    else
      let st3 := { fin.1 with statusdetail := finishedMsg fin.1.read_count prep.2.length }
      ({ st3 with status := "IDLE", statusdetail := "",
                  scancomplete_ts := some now }, .completed)

/-- Quiet period of the debounce timer started by
`Monitor.handleSingleEvent` (seconds). -/
def quietPeriod : Nat := 30

/-- The debounce timeline of `Monitor.handleSingleEvent` /
`handleEventProcessing`: given the remaining raw file-event times (in
order) and the currently pending timer's expiry time, return the times
at which a timer expires and enqueues a `scan` command. A pending timer
that would expire no later than the next event fires (and the slot is
cleared); otherwise the event cancels it. Each event starts a fresh
timer expiring one quiet period later. -/
def debounceRun : List Nat → Option Nat → List Nat
  | [], none => []
  | [], some ft => [ft]
  | t :: ts, none => debounceRun ts (some (t + quietPeriod))
  | t :: ts, some ft =>
      if ft ≤ t then ft :: debounceRun ts (some (t + quietPeriod))
      else debounceRun ts (some (t + quietPeriod))

/-- The sizes of the bulk-insert calls recorded in a trace, in order. -/
def insSizes (tr : List CatOp) : List Nat :=
  tr.filterMap (fun op => match op with
    | .ins n => some n
    | .del _ => none)

/-- The `(path, mod_ts)` identity pair of a stored record. -/
def recPair (r : CatRec) : String × Nat := (r.path, r.mod_ts)

/-- The `(path, mod_ts)` identity pair of a metadata value. -/
def mdPair (m : Md) : String × Nat := (m.path, m.mod_ts)

/-- Whether the archive reader recognizes and successfully extracts the
file. -/
def isOk (o : FileOutcome) : Bool :=
  match o with
  | .comicOk _ _ _ => true
  | _ => false

/-- Whether processing the file raises an exception (before or after
recognition). -/
def isErr (o : FileOutcome) : Bool :=
  match o with
  | .earlyErr => true
  | .comicErr => true
  | _ => false

/-- The metadata values produced, in order, by the successfully
extracted files of a path list (what `scanLoop` appends to the batch
buffer). -/
def okMds (d : Disk) (c : String → FileOutcome) : List String → List Md
  | [] => []
  | p :: ps =>
    match c p with
    | .comicOk pg sz th =>
        { path := p, page_count := pg, mod_ts := d.mtime p,
          filesize := sz, hash := "", thumbnail := th } :: okMds d c ps
    | _ => okMds d c ps

/-- Whether a Catalog operation is a bulk insert. -/
def isIns (op : CatOp) : Bool :=
  match op with
  | .ins _ => true
  | .del _ => false

/-! ## General lemmas about the scan loop -/

/-- Frame relation between two scan states: the fields that the
per-file loop and the batch commits never change are preserved, and the
Catalog trace has only grown by bulk-insert operations. -/
def framePair (st st' : ScanState) : Prop :=
  st'.status = st.status ∧ st'.scancomplete_ts = st.scancomplete_ts ∧
  st'.remove_count = st.remove_count ∧
  ∃ tr, st'.trace = st.trace ++ tr ∧ ∀ op ∈ tr, isIns op = true

/-! ## Concrete fixtures used by witnesses and counterexamples -/

/-- Monitor state as initialized by `Monitor.__init__` (empty Catalog). -/
def initState : ScanState :=
  { status := "IDLE", statusdetail := "", scancomplete_ts := none, add_count := 0,
    remove_count := 0, read_count := 0, catalog := [], nextId := 0, insCalls := 0,
    trace := [], classified := [] }

/-- A filesystem with one file `a` under the roots. -/
def diskOne : Disk := { allFiles := ["a"], mtime := fun _ => 5, inRoot := fun _ => true }

/-- An archive reader that recognizes and extracts every file. -/
def alwaysOk : String → FileOutcome := fun _ => FileOutcome.comicOk 1 2 []

/-- A monitor state whose Catalog holds one record for a path that no
longer exists on disk. -/
def stateStale : ScanState :=
  { initState with catalog := [{ id := 0, path := "gone", mod_ts := 5 }], nextId := 1 }

/-- A filesystem with ten files under the roots. -/
def diskTen : Disk :=
  { allFiles := ["f0", "f1", "f2", "f3", "f4", "f5", "f6", "f7", "f8", "f9"],
    mtime := fun _ => 5, inRoot := fun _ => true }

/-- An insert-failure oracle that fails exactly the first bulk-insert
call of the scan. -/
def failFirst : Nat → Bool := fun n => n == 0

/-- A monitor state whose Catalog holds a fresh record for `a` and a
stale record for a path `b` that is not on disk. -/
def stateTwo : ScanState :=
  { initState with
    catalog := [{ id := 0, path := "a", mod_ts := 5 }, { id := 1, path := "b", mod_ts := 7 }],
    nextId := 2 }

/-- A filesystem with twenty-five files under the roots. -/
def diskTwentyFive : Disk :=
  { allFiles := ["g00", "g01", "g02", "g03", "g04", "g05", "g06", "g07", "g08", "g09",
                 "g10", "g11", "g12", "g13", "g14", "g15", "g16", "g17", "g18", "g19",
                 "g20", "g21", "g22", "g23", "g24"],
    mtime := fun _ => 5, inRoot := fun _ => true }

/-- A filesystem with twenty files under the roots. -/
def diskTwenty : Disk :=
  { allFiles := ["f0", "f1", "f2", "f3", "f4", "f5", "f6", "f7", "f8", "f9",
                 "h0", "h1", "h2", "h3", "h4", "h5", "h6", "h7", "h8", "h9"],
    mtime := fun _ => 5, inRoot := fun _ => true }

/-- An archive reader that recognizes every file but raises during the
extraction of `f9` (after the `read_count` increment). -/
def errAtF9 : String → FileOutcome :=
  fun p => if p = "f9" then FileOutcome.comicErr else FileOutcome.comicOk 1 2 []

/-- A filesystem with two files under the roots. -/
def diskTwoFiles : Disk :=
  { allFiles := ["a", "b"], mtime := fun _ => 5, inRoot := fun _ => true }

/-- An archive reader whose extraction raises on every file after the
`read_count` increment. -/
def alwaysComicErr : String → FileOutcome := fun _ => FileOutcome.comicErr

/-- A filesystem with three files under the roots. -/
def diskThree : Disk :=
  { allFiles := ["k0", "k1", "k2"], mtime := fun _ => 5, inRoot := fun _ => true }

/-- A quit flag that reads false at the first candidate file and true
from the second candidate file on. -/
def quitAfterOne : Nat → Bool := fun j => decide (1 ≤ j)

theorem framePair_refl (st : ScanState) : framePair st st :=
  ⟨rfl, rfl, rfl, [], by simp, by simp⟩

theorem framePair_trans {a b e : ScanState} (h1 : framePair a b) (h2 : framePair b e) :
    framePair a e := by
  obtain ⟨s1, t1, r1, tr1, htr1, hins1⟩ := h1
  obtain ⟨s2, t2, r2, tr2, htr2, hins2⟩ := h2
  refine ⟨s2.trans s1, t2.trans t1, r2.trans r1, tr1 ++ tr2, ?_, ?_⟩
  · rw [htr2, htr1, List.append_assoc]
  · intro op hop
    rcases List.mem_append.mp hop with h | h
    · exact hins1 op h
    · exact hins2 op h

theorem commitMetadataList_framePair (iF : Nat → Bool) (q : Bool) (mds : List Md)
    (st : ScanState) : framePair st (commitMetadataList iF q mds st).1 := by
  unfold commitMetadataList
  split_ifs with h1 h2
  · exact ⟨rfl, rfl, rfl, [], by simp, by simp⟩
  · exact ⟨rfl, rfl, rfl, [CatOp.ins mds.length], rfl, by simp [isIns]⟩
  · exact ⟨rfl, rfl, rfl, [CatOp.ins mds.length], rfl, by simp [isIns]⟩

theorem scanLoop_frame (d : Disk) (c : String → FileOutcome) (qF iF : Nat → Bool)
    (total : Nat) :
    ∀ (files : List String) (i : Nat) (st : ScanState) (mds : List Md),
      framePair st (scanLoop d c qF iF total files i st mds).1 ∧
      ((scanLoop d c qF iF total files i st mds).2.2 = true →
        (scanLoop d c qF iF total files i st mds).1.statusdetail = haltMsg) := by
  intro files
  induction files with
  | nil =>
    intro i st mds
    exact ⟨framePair_refl st, by intro h; simp [scanLoop] at h⟩
  | cons f fs ih =>
    intro i st mds
    simp only [scanLoop]
    cases hc : c f <;>
      simp only [getComicMetadata, hc, Bool.false_eq_true, if_false, if_true,
        eq_self_iff_true]
    case earlyErr =>
      refine ⟨framePair_trans ?_ (ih (i + 1) _ mds).1, (ih (i + 1) _ mds).2⟩
      exact ⟨rfl, rfl, rfl, [], by simp, by simp⟩
    case comicErr =>
      refine ⟨framePair_trans ?_ (ih (i + 1) _ mds).1, (ih (i + 1) _ mds).2⟩
      exact ⟨rfl, rfl, rfl, [], by simp, by simp⟩
    case notComic =>
      by_cases hq : qF i
      · rw [if_pos hq]
        exact ⟨⟨rfl, rfl, rfl, [], by simp, by simp⟩, fun _ => rfl⟩
      · rw [if_neg hq]
        split
        · split
          · refine ⟨framePair_trans (framePair_trans ?_
              (commitMetadataList_framePair iF (qF i) mds _)) (ih (i + 1) _ mds).1,
              (ih (i + 1) _ mds).2⟩
            exact ⟨rfl, rfl, rfl, [], by simp, by simp⟩
          · refine ⟨framePair_trans (framePair_trans ?_
              (commitMetadataList_framePair iF (qF i) mds _)) (ih (i + 1) _ []).1,
              (ih (i + 1) _ []).2⟩
            exact ⟨rfl, rfl, rfl, [], by simp, by simp⟩
        · refine ⟨framePair_trans ?_ (ih (i + 1) _ mds).1, (ih (i + 1) _ mds).2⟩
          exact ⟨rfl, rfl, rfl, [], by simp, by simp⟩
    case comicOk pg sz th =>
      by_cases hq : qF i
      · rw [if_pos hq]
        exact ⟨⟨rfl, rfl, rfl, [], by simp, by simp⟩, fun _ => rfl⟩
      · rw [if_neg hq]
        split
        · split
          · refine ⟨framePair_trans (framePair_trans ?_
              (commitMetadataList_framePair iF (qF i) _ _)) (ih (i + 1) _ _).1,
              (ih (i + 1) _ _).2⟩
            exact ⟨rfl, rfl, rfl, [], by simp, by simp⟩
          · refine ⟨framePair_trans (framePair_trans ?_
              (commitMetadataList_framePair iF (qF i) _ _)) (ih (i + 1) _ []).1,
              (ih (i + 1) _ []).2⟩
            exact ⟨rfl, rfl, rfl, [], by simp, by simp⟩
        · refine ⟨framePair_trans ?_ (ih (i + 1) _ _).1, (ih (i + 1) _ _).2⟩
          exact ⟨rfl, rfl, rfl, [], by simp, by simp⟩

theorem scanPrep_snd (d : Disk) (st0 : ScanState) :
    (scanPrep d st0).2 = (createAddRemoveLists d st0.catalog).1 := rfl

theorem scanPrep_remove_count (d : Disk) (st0 : ScanState) :
    (scanPrep d st0).1.remove_count = 0 := by
  simp only [scanPrep, deleteComics]
  split_ifs <;> rfl

theorem scanPrep_read_count (d : Disk) (st0 : ScanState) :
    (scanPrep d st0).1.read_count = 0 := rfl

theorem scanPrep_status (d : Disk) (st0 : ScanState) :
    (scanPrep d st0).1.status = "SCANNING" := by
  simp only [scanPrep, deleteComics]
  split_ifs <;> rfl

theorem scanPrep_ts (d : Disk) (st0 : ScanState) :
    (scanPrep d st0).1.scancomplete_ts = st0.scancomplete_ts := by
  simp only [scanPrep, deleteComics]
  split_ifs <;> rfl

theorem scanPrep_nextId (d : Disk) (st0 : ScanState) :
    (scanPrep d st0).1.nextId = st0.nextId := by
  simp only [scanPrep, deleteComics]
  split_ifs <;> rfl

theorem scanPrep_trace (d : Disk) (st0 : ScanState) :
    (scanPrep d st0).1.trace =
      if (createAddRemoveLists d st0.catalog).2 = [] then []
      else [CatOp.del (createAddRemoveLists d st0.catalog).2] := by
  by_cases h : (createAddRemoveLists d st0.catalog).2 = []
  · simp [scanPrep, deleteComics, h]
  · have hl : 0 < (createAddRemoveLists d st0.catalog).2.length := List.length_pos.mpr h
    simp [scanPrep, deleteComics, h, hl]

theorem scanPrep_catalog (d : Disk) (st0 : ScanState) :
    (scanPrep d st0).1.catalog = st0.catalog.filter
      (fun r => decide (r.id ∉ (createAddRemoveLists d st0.catalog).2)) := by
  by_cases h : (createAddRemoveLists d st0.catalog).2 = []
  · simp [scanPrep, deleteComics, h]
  · have hl : 0 < (createAddRemoveLists d st0.catalog).2.length := List.length_pos.mpr h
    simp [scanPrep, deleteComics, h, hl]

theorem dofullScan_frame (d : Disk) (c : String → FileOutcome) (qF iF : Nat → Bool)
    (now : Nat) (st0 : ScanState) :
    (dofullScan d c qF iF now st0).1.remove_count = (scanPrep d st0).1.remove_count ∧
    (∃ tr, (dofullScan d c qF iF now st0).1.trace = (scanPrep d st0).1.trace ++ tr ∧
      ∀ op ∈ tr, isIns op = true) ∧
    ((dofullScan d c qF iF now st0).2 = ScanOutcome.halted →
      (dofullScan d c qF iF now st0).1.status = (scanPrep d st0).1.status ∧
      (dofullScan d c qF iF now st0).1.scancomplete_ts = (scanPrep d st0).1.scancomplete_ts ∧
      (dofullScan d c qF iF now st0).1.statusdetail = haltMsg) := by
  obtain ⟨hfp, hhalt⟩ :=
    scanLoop_frame d c qF iF (scanPrep d st0).2.length (scanPrep d st0).2 0
      (scanPrep d st0).1 []
  simp only [dofullScan]
  split
  case isTrue hh =>
    exact ⟨hfp.2.2.1, hfp.2.2.2, fun _ => ⟨hfp.1, hfp.2.1, hhalt hh⟩⟩
  case isFalse hh =>
    by_cases hmds :
      (scanLoop d c qF iF (scanPrep d st0).2.length (scanPrep d st0).2 0
        (scanPrep d st0).1 []).2.1 ≠ []
    · rw [if_pos hmds]
      have hcomp := framePair_trans hfp
        (commitMetadataList_framePair iF (qF (scanPrep d st0).2.length)
          (scanLoop d c qF iF (scanPrep d st0).2.length (scanPrep d st0).2 0
            (scanPrep d st0).1 []).2.1
          (scanLoop d c qF iF (scanPrep d st0).2.length (scanPrep d st0).2 0
            (scanPrep d st0).1 []).1)
      split
      next hr =>
        exact ⟨hcomp.2.2.1, hcomp.2.2.2, fun h => nomatch h⟩
      next hr =>
        exact ⟨hcomp.2.2.1, hcomp.2.2.2, fun h => nomatch h⟩
    · rw [if_neg hmds]
      exact ⟨hfp.2.2.1, hfp.2.2.2, fun h => nomatch h⟩

/-! ## Debounce lemmas -/

theorem debounceRun_pending (ts : List Nat) :
    ∀ t : Nat, List.Chain (fun a b => a ≤ b ∧ b < a + quietPeriod) t ts →
      debounceRun ts (some (t + quietPeriod)) =
        [(t :: ts).getLast (List.cons_ne_nil t ts) + quietPeriod] := by
  induction ts with
  | nil =>
    intro t _
    simp [debounceRun]
  | cons u us ih =>
    intro t h
    cases h with
    | cons hr hc =>
      have hnot : ¬ (t + quietPeriod ≤ u) := not_le.mpr hr.2
      simp only [debounceRun, if_neg hnot]
      rw [ih u hc]
      simp [List.getLast_cons]

/-! ## Claims -/

/-- C7: for every burst of one or more raw file-change events, ordered
in time and with each successive pair less than the 30-second quiet
period apart, exactly one `scan` command is enqueued, and it is
enqueued `quietPeriod` (30 seconds) after the last event of the burst. -/
theorem c7_debounce_coalescing (ts : List Nat) (h1 : ts ≠ [])
    (h2 : List.Chain' (fun a b => a ≤ b ∧ b < a + quietPeriod) ts) :
    debounceRun ts none = [ts.getLast h1 + quietPeriod] := by
  cases ts with
  | nil => exact absurd rfl h1
  | cons t us =>
    simp only [debounceRun]
    exact debounceRun_pending us t h2

/-- Witness for C7 at the concrete burst 0, 10, 20: one scan command,
enqueued at time 50 = 20 + 30. -/
theorem c7_debounce_coalescing_witness :
    debounceRun [0, 10, 20] none = [20 + quietPeriod] := by
  simpa using c7_debounce_coalescing [0, 10, 20] (by decide)
    (by simp [List.chain'_cons, List.chain'_singleton, quietPeriod])

/-- C8: in every `dofullScan`, when the computed `to_remove` list is
non-empty all its comic ids are deleted in one bulk call that precedes
every other Catalog operation of the scan (in particular every bulk
insert); when `to_remove` is empty, no delete call is made. -/
theorem c8_delete_before_add (d : Disk) (c : String → FileOutcome)
    (qF iF : Nat → Bool) (now : Nat) (st0 : ScanState) :
    ((createAddRemoveLists d st0.catalog).2 ≠ [] →
      ∃ rest, (dofullScan d c qF iF now st0).1.trace =
        CatOp.del (createAddRemoveLists d st0.catalog).2 :: rest ∧
        ∀ ids, CatOp.del ids ∉ rest) ∧
    ((createAddRemoveLists d st0.catalog).2 = [] →
      ∀ ids, CatOp.del ids ∉ (dofullScan d c qF iF now st0).1.trace) := by
  obtain ⟨hrm, ⟨tr, htr, hins⟩, hh⟩ := dofullScan_frame d c qF iF now st0
  constructor
  · intro hne
    refine ⟨tr, ?_, ?_⟩
    · rw [htr, scanPrep_trace d st0, if_neg hne]
      rfl
    · intro ids hmem
      have := hins _ hmem
      simp [isIns] at this
  · intro he ids hmem
    rw [htr, scanPrep_trace d st0, if_pos he, List.nil_append] at hmem
    have := hins _ hmem
    simp [isIns] at this

/-- Witness for C8: a scan over a Catalog holding one stale record
deletes it in a bulk call that is the first Catalog operation. -/
theorem c8_delete_before_add_witness :
    (createAddRemoveLists diskOne stateStale.catalog).2 ≠ [] ∧
    ∃ rest, (dofullScan diskOne alwaysOk (fun _ => false) (fun _ => false) 7
        stateStale).1.trace =
      CatOp.del (createAddRemoveLists diskOne stateStale.catalog).2 :: rest ∧
      ∀ ids, CatOp.del ids ∉ rest :=
  ⟨by decide,
   (c8_delete_before_add diskOne alwaysOk (fun _ => false) (fun _ => false) 7
     stateStale).1 (by decide)⟩

/-- C9: the removed-comics counter is dead: `remove_count` is reset to 0
at the start of every `dofullScan` and never incremented anywhere, so
the end-of-scan `Removed N comics` report always shows 0, regardless of
how many records the scan actually deleted from the Catalog, and on
every exit path (completed, halted, raised). -/
theorem c9_remove_count_never_updated (d : Disk) (c : String → FileOutcome)
    (qF iF : Nat → Bool) (now : Nat) (st0 : ScanState) :
    (dofullScan d c qF iF now st0).1.remove_count = 0 :=
  (dofullScan_frame d c qF iF now st0).1.trans (scanPrep_remove_count d st0)

/-- C10: when `dofullScan` returns early at the cancellation checkpoint,
the status is left as `SCANNING`, the detail reads `Monitor: halting
scan!`, and `scancomplete_ts` is not stamped (it keeps its pre-scan
value); only the run-to-completion path performs the IDLE/clear/stamp
transition. -/
theorem c10_halt_leaves_status_midflight (d : Disk) (c : String → FileOutcome)
    (qF iF : Nat → Bool) (now : Nat) (st0 : ScanState)
    (h : (dofullScan d c qF iF now st0).2 = ScanOutcome.halted) :
    (dofullScan d c qF iF now st0).1.status = "SCANNING" ∧
    (dofullScan d c qF iF now st0).1.statusdetail = haltMsg ∧
    (dofullScan d c qF iF now st0).1.scancomplete_ts = st0.scancomplete_ts := by
  obtain ⟨hrm, htr, hh⟩ := dofullScan_frame d c qF iF now st0
  obtain ⟨hs, hts, hd⟩ := hh h
  exact ⟨hs.trans (scanPrep_status d st0), hd, hts.trans (scanPrep_ts d st0)⟩

/-- Witness for C10: cancelling during a one-file scan returns halted
with status `SCANNING`, the halting detail, and no completion stamp. -/
theorem c10_halt_leaves_status_midflight_witness :
    (dofullScan diskOne alwaysOk (fun _ => true) (fun _ => false) 99 initState).2 =
      ScanOutcome.halted ∧
    ((dofullScan diskOne alwaysOk (fun _ => true) (fun _ => false) 99 initState).1.status =
        "SCANNING" ∧
      (dofullScan diskOne alwaysOk (fun _ => true) (fun _ => false) 99
          initState).1.statusdetail = haltMsg ∧
      (dofullScan diskOne alwaysOk (fun _ => true) (fun _ => false) 99
          initState).1.scancomplete_ts = initState.scancomplete_ts) :=
  ⟨by decide,
   c10_halt_leaves_status_midflight diskOne alwaysOk (fun _ => true) (fun _ => false)
     99 initState (by decide)⟩

theorem commitMetadataList_raised (iF : Nat → Bool) (q : Bool) (mds : List Md)
    (st : ScanState) :
    (commitMetadataList iF q mds st).2 = true ↔
      (¬(q = true ∧ mds ≠ []) ∧ iF st.insCalls = true) := by
  unfold commitMetadataList
  split_ifs <;> simp_all

/-- Counterexample to C1: a scan of ten new comics whose first batch
commit (the in-loop commit at `read_count = 10`) raises. The exception
is caught by the per-file handler, the buffer is retained, the final
post-loop commit re-inserts it, and `dofullScan` returns `completed` —
the commit exception did not propagate out of `dofullScan`. -/
theorem c1_commit_failure_counterexample :
    failFirst 0 = true ∧
    insSizes (dofullScan diskTen alwaysOk (fun _ => false) failFirst 7
      initState).1.trace = [10, 10] ∧
    (dofullScan diskTen alwaysOk (fun _ => false) failFirst 7 initState).1.insCalls = 2 ∧
    (dofullScan diskTen alwaysOk (fun _ => false) failFirst 7 initState).2 =
      ScanOutcome.completed := by
  decide

/-- C1 (amended): only an exception raised by the final post-loop batch
commit propagates out of `dofullScan` (the scan ends `raised`, the
epilogue skipped); exceptions raised by in-loop batch commits are caught
by the per-file exception handler, which logs and continues the loop
with the buffer retained. Precisely: `dofullScan` ends `raised` iff the
per-file loop finished without halting, left a non-empty buffer, the
quit flag was down at the final commit, and the bulk-insert call made
by that final commit raises. -/
theorem c1_only_final_commit_failure_propagates (d : Disk) (c : String → FileOutcome)
    (qF iF : Nat → Bool) (now : Nat) (st0 : ScanState) :
    (dofullScan d c qF iF now st0).2 = ScanOutcome.raised ↔
      ((scanLoop d c qF iF (scanPrep d st0).2.length (scanPrep d st0).2 0
          (scanPrep d st0).1 []).2.2 = false ∧
       (scanLoop d c qF iF (scanPrep d st0).2.length (scanPrep d st0).2 0
          (scanPrep d st0).1 []).2.1 ≠ [] ∧
       qF (scanPrep d st0).2.length = false ∧
       iF (scanLoop d c qF iF (scanPrep d st0).2.length (scanPrep d st0).2 0
          (scanPrep d st0).1 []).1.insCalls = true) := by
  simp only [dofullScan]
  split
  next hh =>
    constructor
    · intro h; exact nomatch h
    · rintro ⟨hf, -, -, -⟩
      rw [hh] at hf
      exact nomatch hf
  next hh =>
    have hh' : (scanLoop d c qF iF (scanPrep d st0).2.length (scanPrep d st0).2 0
        (scanPrep d st0).1 []).2.2 = false := by
      simpa using hh
    by_cases hmds : (scanLoop d c qF iF (scanPrep d st0).2.length (scanPrep d st0).2 0
        (scanPrep d st0).1 []).2.1 ≠ []
    · rw [if_pos hmds]
      split
      next hr =>
        rw [commitMetadataList_raised] at hr
        rcases hr with ⟨hq, hif⟩
        have hqf : qF (scanPrep d st0).2.length = false := by
          rcases Bool.eq_false_or_eq_true (qF (scanPrep d st0).2.length) with h | h
          · exact absurd ⟨h, hmds⟩ hq
          · exact h
        exact ⟨fun _ => ⟨hh', hmds, hqf, hif⟩, fun _ => rfl⟩
      next hr =>
        have hr' := (Bool.not_eq_true _).mp hr
        constructor
        · intro h; exact nomatch h
        · rintro ⟨-, -, hqf, hif⟩
          have : (commitMetadataList iF (qF (scanPrep d st0).2.length)
              (scanLoop d c qF iF (scanPrep d st0).2.length (scanPrep d st0).2 0
                (scanPrep d st0).1 []).2.1
              (scanLoop d c qF iF (scanPrep d st0).2.length (scanPrep d st0).2 0
                (scanPrep d st0).1 []).1).2 = true :=
            (commitMetadataList_raised _ _ _ _).mpr
              ⟨fun hcon => absurd hcon.1 (by simp [hqf]), hif⟩
          rw [hr'] at this
          exact nomatch this
    · rw [if_neg hmds]
      constructor
      · intro h; exact nomatch h
      · rintro ⟨-, hne, -, -⟩
        exact absurd hne hmds

/-! ## Reconciliation membership lemmas -/

theorem mem_currentList (d : Disk) (p : String) (t : Nat) :
    (p, t) ∈ currentList d ↔ p ∈ d.allFiles ∧ d.inRoot p = true ∧ t = d.mtime p := by
  simp only [currentList, List.mem_dedup, List.mem_map, List.mem_filter]
  constructor
  · rintro ⟨q, ⟨hq1, hq2⟩, heq⟩
    rw [Prod.mk.injEq] at heq
    obtain ⟨rfl, ht⟩ := heq
    exact ⟨hq1, hq2, ht.symm⟩
  · rintro ⟨h1, h2, rfl⟩
    exact ⟨p, ⟨h1, h2⟩, rfl⟩

theorem mem_toAddPaths (d : Disk) (db : List CatRec) (p : String) :
    p ∈ (createAddRemoveLists d db).1 ↔
      (p, d.mtime p) ∈ currentList d ∧ (p, d.mtime p) ∉ dbPairs db := by
  simp only [createAddRemoveLists, List.mem_map, List.mem_filter, decide_eq_true_eq]
  constructor
  · rintro ⟨pr, ⟨hmem, hnot⟩, heq⟩
    have ht : pr = (p, d.mtime p) := by
      obtain ⟨q, t⟩ := pr
      simp only at heq
      subst heq
      have := ((mem_currentList d q t).mp hmem).2.2
      simp [this]
    rw [ht] at hmem hnot
    exact ⟨hmem, hnot⟩
  · rintro ⟨h1, h2⟩
    exact ⟨(p, d.mtime p), ⟨h1, h2⟩, rfl⟩

theorem ixFold_not_mem (p : String) :
    ∀ (db : List CatRec) (a : Option Nat), p ∉ db.map CatRec.path →
      db.foldl (fun acc r => if r.path = p then some r.id else acc) a = a := by
  intro db
  induction db with
  | nil => intro a _; rfl
  | cons x xs ih =>
    intro a h
    simp only [List.map_cons, List.mem_cons, not_or] at h
    simp only [List.foldl_cons, if_neg (fun he : x.path = p => h.1 he.symm)]
    exact ih a h.2

theorem ixOf_eq_of_mem :
    ∀ (db : List CatRec) (r : CatRec), (db.map CatRec.path).Nodup → r ∈ db →
      ixOf db r.path = r.id := by
  intro db
  induction db with
  | nil => intro r _ hr; cases hr
  | cons x xs ih =>
    intro r hpaths hr
    rw [List.map_cons] at hpaths
    have hnd := List.nodup_cons.mp hpaths
    rcases List.mem_cons.mp hr with rfl | hr2
    · unfold ixOf
      simp only [List.foldl_cons, if_pos]
      rw [ixFold_not_mem r.path xs (some r.id) hnd.1]
      rfl
    · have hx : x.path ≠ r.path := by
        intro he
        exact hnd.1 (he ▸ List.mem_map.mpr ⟨r, hr2, rfl⟩)
      unfold ixOf
      simp only [List.foldl_cons, if_neg hx]
      exact ih r hnd.2 hr2

theorem mem_dbPairs (db : List CatRec) (pr : String × Nat) :
    pr ∈ dbPairs db ↔ ∃ s ∈ db, (s.path, s.mod_ts) = pr := by
  simp [dbPairs, List.mem_dedup, List.mem_map]

theorem mem_removeIds (d : Disk) (db : List CatRec) (r : CatRec)
    (hids : (db.map CatRec.id).Nodup) (hpaths : (db.map CatRec.path).Nodup)
    (hr : r ∈ db) :
    r.id ∈ (createAddRemoveLists d db).2 ↔ recPair r ∉ currentList d := by
  simp only [createAddRemoveLists, List.mem_map, List.mem_filter, decide_eq_true_eq]
  constructor
  · rintro ⟨pr, ⟨hprdb, hprnot⟩, hix⟩
    obtain ⟨s, hs, rfl⟩ := (mem_dbPairs db pr).mp hprdb
    have hid : s.id = r.id := by
      have hixs := ixOf_eq_of_mem db s hpaths hs
      simp only at hix
      rw [← hixs]
      exact hix
    have hseq : s = r := List.inj_on_of_nodup_map hids hs hr hid
    subst hseq
    exact hprnot
  · intro hnot
    refine ⟨recPair r, ⟨?_, hnot⟩, ?_⟩
    · exact (mem_dbPairs db (recPair r)).mpr ⟨r, hr, rfl⟩
    · simpa [recPair] using ixOf_eq_of_mem db r hpaths hr

/-! ## Lemmas on assigned records and extracted metadata -/

theorem assignIds_append (A B : List Md) :
    ∀ n, assignIds n (A ++ B) = assignIds n A ++ assignIds (n + A.length) B := by
  induction A with
  | nil => intro n; simp [assignIds]
  | cons m ms ih =>
    intro n
    have h1 : assignIds n (m :: ms ++ B) =
        { id := n, path := m.path, mod_ts := m.mod_ts } :: assignIds (n + 1) (ms ++ B) := rfl
    rw [h1, ih (n + 1)]
    have harith : n + 1 + ms.length = n + (m :: ms).length := by
      simp only [List.length_cons]
      omega
    rw [harith]
    rfl

theorem le_id_of_mem_assignIds :
    ∀ (mds : List Md) (n : Nat) (s : CatRec), s ∈ assignIds n mds → n ≤ s.id := by
  intro mds
  induction mds with
  | nil => intro n s hs; cases hs
  | cons m ms ih =>
    intro n s hs
    rcases List.mem_cons.mp hs with rfl | hs2
    · exact Nat.le_refl _
    · exact Nat.le_of_succ_le (ih (n + 1) s hs2)

theorem map_recPair_assignIds :
    ∀ (mds : List Md) (n : Nat), (assignIds n mds).map recPair = mds.map mdPair := by
  intro mds
  induction mds with
  | nil => intro n; rfl
  | cons m ms ih =>
    intro n
    simp only [assignIds, List.map_cons, ih (n + 1)]
    rfl

theorem okMds_facts (d : Disk) (c : String → FileOutcome) :
    ∀ (ps : List String) (m : Md), m ∈ okMds d c ps →
      m.path ∈ ps ∧ m.mod_ts = d.mtime m.path ∧ isOk (c m.path) = true := by
  intro ps
  induction ps with
  | nil => intro m hm; cases hm
  | cons p ps ih =>
    intro m hm
    cases hc : c p <;> rw [okMds, hc] at hm
    case earlyErr =>
      obtain ⟨h1, h2, h3⟩ := ih m hm
      exact ⟨List.mem_cons_of_mem p h1, h2, h3⟩
    case notComic =>
      obtain ⟨h1, h2, h3⟩ := ih m hm
      exact ⟨List.mem_cons_of_mem p h1, h2, h3⟩
    case comicErr =>
      obtain ⟨h1, h2, h3⟩ := ih m hm
      exact ⟨List.mem_cons_of_mem p h1, h2, h3⟩
    case comicOk pg sz th =>
      rcases List.mem_cons.mp hm with rfl | hm2
      · exact ⟨List.mem_cons_self _ _, rfl, by simp [isOk, hc]⟩
      · obtain ⟨h1, h2, h3⟩ := ih m hm2
        exact ⟨List.mem_cons_of_mem p h1, h2, h3⟩

theorem okMds_pair_of_mem (d : Disk) (c : String → FileOutcome) :
    ∀ (ps : List String) (p : String), p ∈ ps → isOk (c p) = true →
      ∃ m ∈ okMds d c ps, mdPair m = (p, d.mtime p) := by
  intro ps
  induction ps with
  | nil => intro p hp _; cases hp
  | cons q qs ih =>
    intro p hp hok
    rcases List.mem_cons.mp hp with rfl | hp2
    · cases hc : c p
      case comicOk pg sz th =>
        rw [okMds, hc]
        exact ⟨_, List.mem_cons_self _ _, rfl⟩
      all_goals simp [isOk, hc] at hok
    · obtain ⟨m, hm, hpair⟩ := ih p hp2 hok
      cases hc : c q <;> rw [okMds, hc]
      case comicOk pg sz th => exact ⟨m, List.mem_cons_of_mem _ hm, hpair⟩
      all_goals exact ⟨m, hm, hpair⟩

theorem okMds_eq_nil (d : Disk) (c : String → FileOutcome) :
    ∀ ps : List String, (∀ p ∈ ps, isOk (c p) = false) → okMds d c ps = [] := by
  intro ps
  induction ps with
  | nil => intro _; rfl
  | cons p qs ih =>
    intro h
    cases hc : c p <;> rw [okMds, hc]
    case comicOk pg sz th =>
      have := h p (List.mem_cons_self _ _)
      simp [isOk, hc] at this
    all_goals exact ih (fun q hq => h q (List.mem_cons_of_mem p hq))

/-! ## Clean-run (no cancellation, no commit failure) characterization -/

theorem scanLoop_clean (d : Disk) (c : String → FileOutcome) (qF iF : Nat → Bool)
    (total : Nat) (hq : ∀ j, qF j = false) (hf : ∀ n, iF n = false) :
    ∀ (files : List String) (i : Nat) (st : ScanState) (mds : List Md),
      (scanLoop d c qF iF total files i st mds).2.2 = false ∧
      (scanLoop d c qF iF total files i st mds).1.catalog ++
        assignIds (scanLoop d c qF iF total files i st mds).1.nextId
          (scanLoop d c qF iF total files i st mds).2.1 =
        st.catalog ++ assignIds st.nextId (mds ++ okMds d c files) ∧
      (scanLoop d c qF iF total files i st mds).1.nextId +
        (scanLoop d c qF iF total files i st mds).2.1.length =
        st.nextId + mds.length + (okMds d c files).length := by
  intro files
  induction files with
  | nil =>
    intro i st mds
    refine ⟨rfl, by simp [scanLoop, okMds], by simp [scanLoop, okMds]⟩
  | cons f fs ih =>
    intro i st mds
    have hqi : ¬(qF i = true) := by simp [hq i]
    simp only [scanLoop]
    cases hc : c f <;>
      simp only [getComicMetadata, hc, okMds, Bool.false_eq_true, if_false, if_true,
        eq_self_iff_true]
    case earlyErr =>
      refine ⟨(ih (i + 1) _ mds).1, ?_, ?_⟩
      · rw [(ih (i + 1) _ mds).2.1]
      · rw [(ih (i + 1) _ mds).2.2]
    case comicErr =>
      refine ⟨(ih (i + 1) _ mds).1, ?_, ?_⟩
      · rw [(ih (i + 1) _ mds).2.1]
      · rw [(ih (i + 1) _ mds).2.2]
    case notComic =>
      rw [if_neg hqi]
      split
      · simp only [commitMetadataList, hq i, hf, Bool.false_eq_true, false_and,
          if_false, ne_eq]
        refine ⟨(ih (i + 1) _ []).1, ?_, ?_⟩
        · rw [(ih (i + 1) _ []).2.1]
          simp only [List.nil_append]
          rw [List.append_assoc, ← assignIds_append]
        · rw [(ih (i + 1) _ []).2.2]
          simp only [List.length_nil]
          omega
      · refine ⟨(ih (i + 1) _ mds).1, ?_, ?_⟩
        · rw [(ih (i + 1) _ mds).2.1]
        · rw [(ih (i + 1) _ mds).2.2]
    case comicOk pg sz th =>
      rw [if_neg hqi]
      split
      · simp only [commitMetadataList, hq i, hf, Bool.false_eq_true, false_and,
          if_false, ne_eq]
        refine ⟨(ih (i + 1) _ []).1, ?_, ?_⟩
        · rw [(ih (i + 1) _ []).2.1]
          simp only [List.nil_append]
          rw [List.append_assoc, ← assignIds_append]
          simp [List.append_assoc]
        · rw [(ih (i + 1) _ []).2.2]
          simp only [List.length_nil, List.length_append, List.length_cons]
          omega
      · refine ⟨(ih (i + 1) _ (mds ++ [_])).1, ?_, ?_⟩
        · rw [(ih (i + 1) _ (mds ++ [_])).2.1]
          simp [List.append_assoc]
        · rw [(ih (i + 1) _ (mds ++ [_])).2.2]
          simp only [List.length_append, List.length_cons, List.length_nil]
          omega

theorem dofullScan_clean (d : Disk) (c : String → FileOutcome) (qF iF : Nat → Bool)
    (now : Nat) (st0 : ScanState) (hq : ∀ j, qF j = false) (hf : ∀ n, iF n = false) :
    (dofullScan d c qF iF now st0).2 = ScanOutcome.completed ∧
    (dofullScan d c qF iF now st0).1.catalog =
      (scanPrep d st0).1.catalog ++
        assignIds st0.nextId (okMds d c (createAddRemoveLists d st0.catalog).1) ∧
    (dofullScan d c qF iF now st0).1.nextId =
      st0.nextId + (okMds d c (createAddRemoveLists d st0.catalog).1).length := by
  obtain ⟨hhalt, hcat, hnid⟩ :=
    scanLoop_clean d c qF iF (scanPrep d st0).2.length hq hf (scanPrep d st0).2 0
      (scanPrep d st0).1 []
  rw [scanPrep_snd d st0] at hhalt hcat hnid
  have hpnid := scanPrep_nextId d st0
  simp only [dofullScan]
  rw [scanPrep_snd d st0]
  simp only [hhalt, Bool.false_eq_true, if_false]
  by_cases hmds :
    (scanLoop d c qF iF (createAddRemoveLists d st0.catalog).1.length
      (createAddRemoveLists d st0.catalog).1 0 (scanPrep d st0).1 []).2.1 ≠ []
  · rw [if_pos hmds]
    simp only [commitMetadataList, hq, hf, Bool.false_eq_true, false_and, if_false,
      ne_eq]
    refine ⟨by trivial, ?_, ?_⟩
    · rw [hcat, hpnid]
      simp
    · rw [hnid, hpnid]
      simp
  · rw [if_neg hmds]
    dsimp only
    simp only [Bool.false_eq_true, if_false]
    push_neg at hmds
    rw [hmds] at hcat hnid
    simp only [assignIds, List.append_nil, List.nil_append, List.length_nil,
      Nat.add_zero] at hcat hnid
    refine ⟨by trivial, ?_, ?_⟩
    · rw [hcat, hpnid]
    · rw [hpnid] at hnid
      omega

/-- C2: for a Catalog whose records have pairwise-distinct comic ids and
pairwise-distinct paths, all below the fresh-id counter, after a
`dofullScan` that runs with no cancellation and no commit failure, a
stored record has been deleted from the Catalog if and only if its path
no longer exists on disk, or lies outside every watch root, or its
on-disk modification timestamp differs from the stored one; every other
stored record is still present unchanged. -/
theorem c2_removed_iff_missing_or_stale (d : Disk) (c : String → FileOutcome)
    (now : Nat) (st0 : ScanState) (r : CatRec)
    (hids : (st0.catalog.map CatRec.id).Nodup)
    (hpaths : (st0.catalog.map CatRec.path).Nodup)
    (hfresh : ∀ s ∈ st0.catalog, s.id < st0.nextId)
    (hr : r ∈ st0.catalog) :
    r ∉ (dofullScan d c (fun _ => false) (fun _ => false) now st0).1.catalog ↔
      ¬(r.path ∈ d.allFiles ∧ d.inRoot r.path = true ∧ d.mtime r.path = r.mod_ts) := by
  obtain ⟨-, hcat, -⟩ :=
    dofullScan_clean d c (fun _ => false) (fun _ => false) now st0
      (fun _ => rfl) (fun _ => rfl)
  have hins : r ∉ assignIds st0.nextId
      (okMds d c (createAddRemoveLists d st0.catalog).1) := by
    intro hmem
    exact absurd (le_id_of_mem_assignIds _ _ _ hmem) (Nat.not_le.mpr (hfresh r hr))
  have hkept : r ∈ st0.catalog.filter
      (fun s => decide (s.id ∉ (createAddRemoveLists d st0.catalog).2)) ↔
      recPair r ∈ currentList d := by
    rw [List.mem_filter]
    constructor
    · rintro ⟨-, hdec⟩
      have hnid : r.id ∉ (createAddRemoveLists d st0.catalog).2 :=
        of_decide_eq_true hdec
      by_contra hnc
      exact hnid ((mem_removeIds d st0.catalog r hids hpaths hr).mpr hnc)
    · intro hc
      refine ⟨hr, decide_eq_true ?_⟩
      intro hid
      exact ((mem_removeIds d st0.catalog r hids hpaths hr).mp hid) hc
  rw [hcat, scanPrep_catalog d st0]
  constructor
  · intro hno hcond
    refine hno (List.mem_append.mpr (Or.inl (hkept.mpr ?_)))
    exact (mem_currentList d r.path r.mod_ts).mpr ⟨hcond.1, hcond.2.1, hcond.2.2.symm⟩
  · intro hncond hmem
    rcases List.mem_append.mp hmem with h | h
    · obtain ⟨h1, h2, h3⟩ := (mem_currentList d r.path r.mod_ts).mp (hkept.mp h)
      exact hncond ⟨h1, h2, h3.symm⟩
    · exact hins h

/-- Witness for C2: with the Catalog holding a fresh record for `a` and
a record for the vanished path `b`, the scan deletes exactly the `b`
record. -/
theorem c2_removed_iff_missing_or_stale_witness :
    ((stateTwo.catalog.map CatRec.id).Nodup ∧
     (stateTwo.catalog.map CatRec.path).Nodup ∧
     (∀ s ∈ stateTwo.catalog, s.id < stateTwo.nextId) ∧
     { id := 1, path := "b", mod_ts := 7 } ∈ stateTwo.catalog) ∧
    ({ id := 1, path := "b", mod_ts := 7 } ∉
        (dofullScan diskOne alwaysOk (fun _ => false) (fun _ => false) 3
          stateTwo).1.catalog ↔
      ¬(CatRec.path { id := 1, path := "b", mod_ts := 7 } ∈ diskOne.allFiles ∧
        diskOne.inRoot (CatRec.path { id := 1, path := "b", mod_ts := 7 }) = true ∧
        diskOne.mtime (CatRec.path { id := 1, path := "b", mod_ts := 7 }) =
          CatRec.mod_ts { id := 1, path := "b", mod_ts := 7 })) :=
  ⟨⟨by decide, by decide, by decide, by decide⟩,
   c2_removed_iff_missing_or_stale diskOne alwaysOk 3 stateTwo
     { id := 1, path := "b", mod_ts := 7 }
     (by decide) (by decide) (by decide) (by decide)⟩

theorem scanLoop_no_ok (d : Disk) (c : String → FileOutcome) (qF iF : Nat → Bool)
    (total : Nat) (hq : ∀ j, qF j = false) :
    ∀ (files : List String) (i : Nat) (st : ScanState),
      (∀ p ∈ files, isOk (c p) = false) →
      (scanLoop d c qF iF total files i st []).1.trace = st.trace ∧
      (scanLoop d c qF iF total files i st []).2.1 = [] ∧
      (scanLoop d c qF iF total files i st []).2.2 = false := by
  intro files
  induction files with
  | nil => intro i st _; exact ⟨rfl, rfl, rfl⟩
  | cons f fs ih =>
    intro i st hnok
    have hqi : ¬(qF i = true) := by simp [hq i]
    have htl : ∀ p ∈ fs, isOk (c p) = false :=
      fun p hp => hnok p (List.mem_cons_of_mem f hp)
    simp only [scanLoop]
    cases hc : c f <;>
      simp only [getComicMetadata, hc, Bool.false_eq_true, if_false, if_true,
        eq_self_iff_true]
    case earlyErr => exact ih (i + 1) _ htl
    case comicErr => exact ih (i + 1) _ htl
    case notComic =>
      rw [if_neg hqi]
      rw [if_neg (fun h : _ ∧ _ ∧ ([] : List Md) ≠ [] => h.2.2 rfl)]
      exact ih (i + 1) _ htl
    case comicOk pg sz th =>
      have hcontra := hnok f (List.mem_cons_self f fs)
      rw [hc] at hcontra
      simp [isOk] at hcontra

/-- C3: starting from a well-formed Catalog (distinct ids, distinct
paths, ids below the fresh-id counter), running `dofullScan` a second
time immediately after a completed clean `dofullScan`, with the same
filesystem and archive-reader behaviour, performs no Catalog operation
at all: the second run's trace of bulk deletes and bulk inserts is
empty. -/
theorem c3_second_scan_performs_no_catalog_ops (d : Disk) (c : String → FileOutcome)
    (now1 now2 : Nat) (st0 : ScanState)
    (hids : (st0.catalog.map CatRec.id).Nodup)
    (hpaths : (st0.catalog.map CatRec.path).Nodup)
    (hfresh : ∀ s ∈ st0.catalog, s.id < st0.nextId) :
    (dofullScan d c (fun _ => false) (fun _ => false) now2
      (dofullScan d c (fun _ => false) (fun _ => false) now1 st0).1).1.trace = [] := by
  obtain ⟨-, hcat1, -⟩ :=
    dofullScan_clean d c (fun _ => false) (fun _ => false) now1 st0
      (fun _ => rfl) (fun _ => rfl)
  rw [scanPrep_catalog d st0] at hcat1
  have hA : ∀ s ∈ (dofullScan d c (fun _ => false) (fun _ => false) now1 st0).1.catalog,
      recPair s ∈ currentList d := by
    intro s hs
    rw [hcat1] at hs
    rcases List.mem_append.mp hs with h | h
    · rw [List.mem_filter] at h
      obtain ⟨hs0, hdec⟩ := h
      have hnid : s.id ∉ (createAddRemoveLists d st0.catalog).2 := of_decide_eq_true hdec
      by_contra hnc
      exact hnid ((mem_removeIds d st0.catalog s hids hpaths hs0).mpr hnc)
    · have hpr : recPair s ∈ (okMds d c (createAddRemoveLists d st0.catalog).1).map mdPair := by
        rw [← map_recPair_assignIds _ st0.nextId]
        exact List.mem_map_of_mem recPair h
      obtain ⟨m, hm, hmp⟩ := List.mem_map.mp hpr
      obtain ⟨hmem, hmt, -⟩ := okMds_facts d c _ m hm
      have hcur : (m.path, d.mtime m.path) ∈ currentList d :=
        ((mem_toAddPaths d st0.catalog m.path).mp hmem).1
      rw [← hmp]
      simpa [mdPair, hmt] using hcur
  have hB : (createAddRemoveLists d
      (dofullScan d c (fun _ => false) (fun _ => false) now1 st0).1.catalog).2 = [] := by
    have hfil : (dbPairs
        (dofullScan d c (fun _ => false) (fun _ => false) now1 st0).1.catalog).filter
        (fun pr : String × Nat => decide (pr ∉ currentList d)) = [] := by
      rw [List.filter_eq_nil_iff]
      intro pr hpr
      obtain ⟨s, hs, hpr2⟩ := (mem_dbPairs _ pr).mp hpr
      have h' : (s.path, s.mod_ts) ∈ currentList d := hA s hs
      simp only [decide_eq_true_eq, not_not]
      exact hpr2 ▸ h'
    simp only [createAddRemoveLists]
    rw [hfil]
    rfl
  have hC : ∀ p ∈ (createAddRemoveLists d
      (dofullScan d c (fun _ => false) (fun _ => false) now1 st0).1.catalog).1,
      isOk (c p) = false := by
    intro p hp
    by_contra hok'
    rw [Bool.not_eq_false] at hok'
    obtain ⟨hcur, hndb⟩ := (mem_toAddPaths d _ p).mp hp
    apply hndb
    by_cases hdb0 : (p, d.mtime p) ∈ dbPairs st0.catalog
    · obtain ⟨s, hs0, hsp⟩ := (mem_dbPairs _ _).mp hdb0
      have hkeep : s ∈ (dofullScan d c (fun _ => false) (fun _ => false) now1
          st0).1.catalog := by
        rw [hcat1]
        refine List.mem_append.mpr (Or.inl ?_)
        rw [List.mem_filter]
        refine ⟨hs0, decide_eq_true ?_⟩
        intro hin
        have hno := (mem_removeIds d st0.catalog s hids hpaths hs0).mp hin
        apply hno
        rw [show recPair s = (p, d.mtime p) from hsp]
        exact hcur
      exact (mem_dbPairs _ _).mpr ⟨s, hkeep, hsp⟩
    · have hp1 : p ∈ (createAddRemoveLists d st0.catalog).1 :=
        (mem_toAddPaths d st0.catalog p).mpr ⟨hcur, hdb0⟩
      obtain ⟨m, hm, hmp⟩ := okMds_pair_of_mem d c _ p hp1 hok'
      have hmm : (p, d.mtime p) ∈ (assignIds st0.nextId
          (okMds d c (createAddRemoveLists d st0.catalog).1)).map recPair := by
        rw [map_recPair_assignIds]
        exact hmp ▸ List.mem_map_of_mem mdPair hm
      obtain ⟨s, hsmem, hsp⟩ := List.mem_map.mp hmm
      refine (mem_dbPairs _ _).mpr ⟨s, ?_, hsp⟩
      rw [hcat1]
      exact List.mem_append.mpr (Or.inr hsmem)
  set ST : ScanState := (dofullScan d c (fun _ => false) (fun _ => false) now1 st0).1
    with hST
  obtain ⟨htr2, hbuf2, hhalt2⟩ :=
    scanLoop_no_ok d c (fun _ => false) (fun _ => false)
      (scanPrep d ST).2.length (fun _ => rfl) (scanPrep d ST).2 0 (scanPrep d ST).1
      (by rw [scanPrep_snd]; exact hC)
  simp only [dofullScan]
  simp only [hhalt2, Bool.false_eq_true, if_false]
  simp only [hbuf2, ne_eq, eq_self_iff_true, not_true, if_false]
  rw [htr2, scanPrep_trace, if_pos hB]
  rfl

/-! ## Batch arithmetic for error-free runs -/

theorem insSizes_append (a b : List CatOp) :
    insSizes (a ++ b) = insSizes a ++ insSizes b := by
  simp [insSizes, List.filterMap_append]

theorem insSizes_scanPrep (d : Disk) (st0 : ScanState) :
    insSizes (scanPrep d st0).1.trace = [] := by
  rw [scanPrep_trace]
  split_ifs <;> simp [insSizes]

theorem scanLoop_noerr_clean (d : Disk) (c : String → FileOutcome) (qF iF : Nat → Bool)
    (total : Nat) (hf : ∀ n, iF n = false) :
    ∀ (files : List String) (i : Nat) (st : ScanState) (mds : List Md),
      (∀ p ∈ files, isErr (c p) = false) →
      (∀ j, j < files.length → qF (i + j) = false) →
      mds.length = st.read_count % 10 →
      (scanLoop d c qF iF total files i st mds).2.2 = false ∧
      (scanLoop d c qF iF total files i st mds).1.read_count =
        st.read_count + (okMds d c files).length ∧
      (scanLoop d c qF iF total files i st mds).2.1.length =
        (st.read_count + (okMds d c files).length) % 10 ∧
      insSizes (scanLoop d c qF iF total files i st mds).1.trace =
        insSizes st.trace ++ List.replicate
          ((st.read_count + (okMds d c files).length) / 10 - st.read_count / 10) 10 := by
  intro files
  induction files with
  | nil =>
    intro i st mds _ _ hlen
    refine ⟨rfl, by simp [scanLoop, okMds], by simpa [scanLoop, okMds] using hlen, ?_⟩
    simp [scanLoop, okMds]
  | cons f fs ih =>
    intro i st mds hne hq hlen
    have hqi : ¬(qF i = true) := by
      have h0 := hq 0 (by simp)
      rw [Nat.add_zero] at h0
      simp [h0]
    have hqtl : ∀ j, j < fs.length → qF (i + 1 + j) = false := by
      intro j hj
      have h1 := hq (j + 1) (by simpa using Nat.succ_lt_succ hj)
      rwa [show i + (j + 1) = i + 1 + j from by omega] at h1
    have hntl : ∀ p ∈ fs, isErr (c p) = false :=
      fun p hp => hne p (List.mem_cons_of_mem f hp)
    simp only [scanLoop]
    cases hc : c f <;>
      simp only [getComicMetadata, hc, okMds, Bool.false_eq_true, if_false, if_true,
        eq_self_iff_true, List.length_cons]
    case earlyErr =>
      have hcontra := hne f (List.mem_cons_self f fs)
      rw [hc] at hcontra
      simp [isErr] at hcontra
    case comicErr =>
      have hcontra := hne f (List.mem_cons_self f fs)
      rw [hc] at hcontra
      simp [isErr] at hcontra
    case notComic =>
      rw [if_neg hqi]
      have hnofire : ¬(st.read_count % 10 = 0 ∧ st.read_count ≠ 0 ∧ mds ≠ []) := by
        rintro ⟨h1, -, h3⟩
        exact h3 (List.eq_nil_of_length_eq_zero (by rw [hlen, h1]))
      rw [if_neg hnofire]
      exact ih (i + 1) _ mds hntl hqtl hlen
    case comicOk pg sz th =>
      rw [if_neg hqi]
      by_cases hfire : (st.read_count + 1) % 10 = 0 ∧ st.read_count + 1 ≠ 0 ∧
          mds ++ [({ path := f, page_count := pg, mod_ts := d.mtime f,
                     filesize := sz, hash := "", thumbnail := th } : Md)] ≠ []
      · rw [if_pos hfire]
        have hqf : qF i = false := by simpa using hqi
        simp only [commitMetadataList, hqf, hf, Bool.false_eq_true, false_and,
          if_false, ne_eq]
        have hlen3 : ([] : List Md).length = (st.read_count + 1) % 10 := by
          simp [hfire.1]
        have hlen10 : (mds ++ [({ path := f, page_count := pg, mod_ts := d.mtime f,
                                  filesize := sz, hash := "",
                                  thumbnail := th } : Md)]).length = 10 := by
          simp only [List.length_append, List.length_cons, List.length_nil, hlen]
          omega
        refine ⟨(ih (i + 1) _ [] hntl hqtl hlen3).1, ?_, ?_, ?_⟩
        · rw [show st.read_count + ((okMds d c fs).length + 1) =
              st.read_count + 1 + (okMds d c fs).length from by omega]
          exact (ih (i + 1) _ [] hntl hqtl hlen3).2.1
        · rw [show (st.read_count + ((okMds d c fs).length + 1)) % 10 =
              (st.read_count + 1 + (okMds d c fs).length) % 10 from by omega]
          exact (ih (i + 1) _ [] hntl hqtl hlen3).2.2.1
        · rw [(ih (i + 1) _ [] hntl hqtl hlen3).2.2.2]
          simp only [insSizes_append, hlen10]
          have hrep : (st.read_count + ((okMds d c fs).length + 1)) / 10 -
              st.read_count / 10 =
              ((st.read_count + 1 + (okMds d c fs).length) / 10 -
                (st.read_count + 1) / 10) + 1 := by
            have h1 := hfire.1
            omega
          rw [hrep, List.replicate_succ]
          simp [insSizes, List.append_assoc]
      · rw [if_neg hfire]
        have hb : ¬((st.read_count + 1) % 10 = 0) := by
          intro ha
          exact hfire ⟨ha, by omega, by simp⟩
        have hlen2 : (mds ++ [({ path := f, page_count := pg, mod_ts := d.mtime f,
                                 filesize := sz, hash := "",
                                 thumbnail := th } : Md)]).length =
            (st.read_count + 1) % 10 := by
          simp only [List.length_append, List.length_cons, List.length_nil, hlen]
          omega
        refine ⟨(ih (i + 1) _ _ hntl hqtl hlen2).1, ?_, ?_, ?_⟩
        · rw [show st.read_count + ((okMds d c fs).length + 1) =
              st.read_count + 1 + (okMds d c fs).length from by omega]
          exact (ih (i + 1) _ _ hntl hqtl hlen2).2.1
        · rw [show (st.read_count + ((okMds d c fs).length + 1)) % 10 =
              (st.read_count + 1 + (okMds d c fs).length) % 10 from by omega]
          exact (ih (i + 1) _ _ hntl hqtl hlen2).2.2.1
        · rw [show (st.read_count + ((okMds d c fs).length + 1)) / 10 -
              st.read_count / 10 =
              (st.read_count + 1 + (okMds d c fs).length) / 10 -
                (st.read_count + 1) / 10 from by omega]
          exact (ih (i + 1) _ _ hntl hqtl hlen2).2.2.2

theorem scanLoop_noerr_halt (d : Disk) (c : String → FileOutcome) (qF iF : Nat → Bool)
    (total : Nat) (hf : ∀ n, iF n = false) :
    ∀ (files : List String) (j0 i : Nat) (st : ScanState) (mds : List Md),
      (∀ p ∈ files, isErr (c p) = false) →
      (∀ j, j < j0 → qF (i + j) = false) →
      qF (i + j0) = true →
      j0 < files.length →
      mds.length = st.read_count % 10 →
      (scanLoop d c qF iF total files i st mds).2.2 = true ∧
      (scanLoop d c qF iF total files i st mds).1.classified =
        st.classified ++ files.take (j0 + 1) ∧
      (scanLoop d c qF iF total files i st mds).1.catalog =
        st.catalog ++ assignIds st.nextId
          ((mds ++ okMds d c (files.take (j0 + 1))).take
            (10 * ((st.read_count + (okMds d c (files.take j0)).length) / 10) -
             10 * (st.read_count / 10))) ∧
      insSizes (scanLoop d c qF iF total files i st mds).1.trace =
        insSizes st.trace ++ List.replicate
          ((st.read_count + (okMds d c (files.take j0)).length) / 10 -
            st.read_count / 10) 10 := by
  intro files
  induction files with
  | nil =>
    intro j0 i st mds _ _ _ hj0 _
    exact absurd hj0 (by simp)
  | cons f fs ih =>
    intro j0 i st mds hne hqmin hq0 hj0 hlen
    have hntl : ∀ p ∈ fs, isErr (c p) = false :=
      fun p hp => hne p (List.mem_cons_of_mem f hp)
    simp only [scanLoop]
    cases hc : c f <;>
      simp only [getComicMetadata, hc, Bool.false_eq_true, if_false, if_true,
        eq_self_iff_true]
    case earlyErr =>
      have hcontra := hne f (List.mem_cons_self f fs)
      rw [hc] at hcontra
      simp [isErr] at hcontra
    case comicErr =>
      have hcontra := hne f (List.mem_cons_self f fs)
      rw [hc] at hcontra
      simp [isErr] at hcontra
    case notComic =>
      cases j0 with
      | zero =>
        rw [Nat.add_zero] at hq0
        rw [if_pos hq0]
        exact ⟨rfl, by simp, by simp [okMds, assignIds], by simp [okMds]⟩
      | succ j0' =>
        have hqi : ¬(qF i = true) := by
          have h0 := hqmin 0 (Nat.succ_pos j0')
          rw [Nat.add_zero] at h0
          simp [h0]
        rw [if_neg hqi]
        have hnofire : ¬(st.read_count % 10 = 0 ∧ st.read_count ≠ 0 ∧ mds ≠ []) := by
          rintro ⟨h1, -, h3⟩
          exact h3 (List.eq_nil_of_length_eq_zero (by rw [hlen, h1]))
        rw [if_neg hnofire]
        have hqmin' : ∀ j, j < j0' → qF (i + 1 + j) = false := by
          intro j hj
          have h1 := hqmin (j + 1) (Nat.succ_lt_succ hj)
          rwa [show i + (j + 1) = i + 1 + j from by omega] at h1
        have hq0' : qF (i + 1 + j0') = true := by
          rwa [show i + (j0' + 1) = i + 1 + j0' from by omega] at hq0
        have hj0' : j0' < fs.length := by simpa using Nat.lt_of_succ_lt_succ hj0
        obtain ⟨g1, g2, g3, g4⟩ := ih j0' (i + 1)
          { st with statusdetail := progressMsg total st.read_count st.add_count,
                    classified := st.classified ++ [f] }
          mds hntl hqmin' hq0' hj0' hlen
        refine ⟨g1, ?_, ?_, ?_⟩
        · rw [g2]
          simp [List.take_succ_cons, okMds, hc]
        · rw [g3]
          simp only [List.take_succ_cons, okMds, hc]
        · rw [g4]
          simp only [List.take_succ_cons, okMds, hc]
    case comicOk pg sz th =>
      cases j0 with
      | zero =>
        rw [Nat.add_zero] at hq0
        rw [if_pos hq0]
        exact ⟨rfl, by simp, by simp [okMds, assignIds], by simp [okMds]⟩
      | succ j0' =>
        have hqi : ¬(qF i = true) := by
          have h0 := hqmin 0 (Nat.succ_pos j0')
          rw [Nat.add_zero] at h0
          simp [h0]
        rw [if_neg hqi]
        have hqmin' : ∀ j, j < j0' → qF (i + 1 + j) = false := by
          intro j hj
          have h1 := hqmin (j + 1) (Nat.succ_lt_succ hj)
          rwa [show i + (j + 1) = i + 1 + j from by omega] at h1
        have hq0' : qF (i + 1 + j0') = true := by
          rwa [show i + (j0' + 1) = i + 1 + j0' from by omega] at hq0
        have hj0' : j0' < fs.length := by simpa using Nat.lt_of_succ_lt_succ hj0
        by_cases hfire : (st.read_count + 1) % 10 = 0 ∧ st.read_count + 1 ≠ 0 ∧
            mds ++ [({ path := f, page_count := pg, mod_ts := d.mtime f,
                       filesize := sz, hash := "", thumbnail := th } : Md)] ≠ []
        · rw [if_pos hfire]
          have hqf : qF i = false := by simpa using hqi
          simp only [commitMetadataList, hqf, hf, Bool.false_eq_true, false_and,
            if_false, ne_eq]
          have hlen3 : ([] : List Md).length = (st.read_count + 1) % 10 := by
            simp [hfire.1]
          have hlen10 : (mds ++ [({ path := f, page_count := pg, mod_ts := d.mtime f,
                                    filesize := sz, hash := "",
                                    thumbnail := th } : Md)]).length = 10 := by
            simp only [List.length_append, List.length_cons, List.length_nil, hlen]
            omega
          refine ⟨(ih j0' (i + 1) _ [] hntl hqmin' hq0' hj0' hlen3).1, ?_, ?_, ?_⟩
          · rw [(ih j0' (i + 1) _ [] hntl hqmin' hq0' hj0' hlen3).2.1]
            simp [List.take_succ_cons, List.append_assoc]
          · rw [(ih j0' (i + 1) _ [] hntl hqmin' hq0' hj0' hlen3).2.2.1]
            simp only [List.take_succ_cons, okMds, hc, List.nil_append,
              List.length_cons]
            rw [List.append_assoc, ← assignIds_append]
            conv_rhs => rw [List.append_cons]
            conv_lhs => rw [← List.take_append
              (10 * ((st.read_count + 1 + (okMds d c (List.take j0' fs)).length) / 10) -
                10 * ((st.read_count + 1) / 10))]
            rw [hlen10]
            rw [show 10 * ((st.read_count + ((okMds d c (List.take j0' fs)).length + 1)) / 10) -
                  10 * (st.read_count / 10) =
                10 + (10 * ((st.read_count + 1 + (okMds d c (List.take j0' fs)).length) / 10) -
                  10 * ((st.read_count + 1) / 10)) from by
              have h1 := hfire.1
              omega]
          · rw [(ih j0' (i + 1) _ [] hntl hqmin' hq0' hj0' hlen3).2.2.2]
            simp only [insSizes_append, okMds, hc, List.length_cons]
            rw [hlen10]
            rw [show (st.read_count + ((okMds d c (List.take j0' fs)).length + 1)) / 10 -
                  st.read_count / 10 =
                ((st.read_count + 1 + (okMds d c (List.take j0' fs)).length) / 10 -
                  (st.read_count + 1) / 10) + 1 from by
              have h1 := hfire.1
              omega]
            rw [List.replicate_succ]
            simp [insSizes, List.append_assoc]
        · rw [if_neg hfire]
          have hb : ¬((st.read_count + 1) % 10 = 0) := by
            intro ha
            exact hfire ⟨ha, by omega, by simp⟩
          have hlen2 : (mds ++ [({ path := f, page_count := pg, mod_ts := d.mtime f,
                                   filesize := sz, hash := "",
                                   thumbnail := th } : Md)]).length =
              (st.read_count + 1) % 10 := by
            simp only [List.length_append, List.length_cons, List.length_nil, hlen]
            omega
          refine ⟨(ih j0' (i + 1) _ _ hntl hqmin' hq0' hj0' hlen2).1, ?_, ?_, ?_⟩
          · rw [(ih j0' (i + 1) _ _ hntl hqmin' hq0' hj0' hlen2).2.1]
            simp [List.take_succ_cons, List.append_assoc]
          · rw [(ih j0' (i + 1) _ _ hntl hqmin' hq0' hj0' hlen2).2.2.1]
            simp only [List.take_succ_cons, okMds, hc, List.length_cons]
            conv_rhs => rw [List.append_cons]
            rw [show 10 * ((st.read_count + ((okMds d c (List.take j0' fs)).length + 1)) / 10) -
                  10 * (st.read_count / 10) =
                10 * ((st.read_count + 1 + (okMds d c (List.take j0' fs)).length) / 10) -
                  10 * ((st.read_count + 1) / 10) from by omega]
          · rw [(ih j0' (i + 1) _ _ hntl hqmin' hq0' hj0' hlen2).2.2.2]
            simp only [okMds, hc, List.length_cons]
            rw [show (st.read_count + ((okMds d c (List.take j0' fs)).length + 1)) / 10 -
                  st.read_count / 10 =
                (st.read_count + 1 + (okMds d c (List.take j0' fs)).length) / 10 -
                  (st.read_count + 1) / 10 from by omega]

theorem isErr_false_of_isOk (o : FileOutcome) (h : isOk o = true) : isErr o = false := by
  cases o <;> simp [isOk, isErr] at h ⊢

theorem okMds_length_of_all_ok (d : Disk) (c : String → FileOutcome) :
    ∀ ps : List String, (∀ p ∈ ps, isOk (c p) = true) →
      (okMds d c ps).length = ps.length := by
  intro ps
  induction ps with
  | nil => intro _; rfl
  | cons p qs ih =>
    intro h
    cases hc : c p <;> rw [okMds, hc]
    case comicOk pg sz th =>
      simp only [List.length_cons]
      rw [ih (fun q hq => h q (List.mem_cons_of_mem p hq))]
    all_goals
      have hcontra := h p (List.mem_cons_self p qs)
      rw [hc] at hcontra
      simp [isOk] at hcontra

theorem scanPrep_classified (d : Disk) (st0 : ScanState) :
    (scanPrep d st0).1.classified = [] := by
  simp only [scanPrep, deleteComics]
  split_ifs <;> rfl

theorem commitMetadataList_sizes (iF : Nat → Bool) (q : Bool) (mds : List Md)
    (st : ScanState) :
    insSizes (commitMetadataList iF q mds st).1.trace = insSizes st.trace ∨
    insSizes (commitMetadataList iF q mds st).1.trace =
      insSizes st.trace ++ [mds.length] := by
  unfold commitMetadataList
  split_ifs
  · exact Or.inl rfl
  · refine Or.inr ?_
    simp [insSizes_append, insSizes]
  · refine Or.inr ?_
    simp [insSizes_append, insSizes]

/-- C5: for every scan whose computed `to_add` list holds exactly 25
files, all recognized as comic archives with no extraction error, a
clean run (no cancellation, no commit failure) makes exactly three
bulk-insert calls to the Catalog, of sizes 10, 10 and 5, in that
order. -/
theorem c5_batch_boundary_25 (d : Disk) (c : String → FileOutcome) (now : Nat)
    (st0 : ScanState)
    (hlen25 : (createAddRemoveLists d st0.catalog).1.length = 25)
    (hok : ∀ p ∈ (createAddRemoveLists d st0.catalog).1, isOk (c p) = true) :
    insSizes (dofullScan d c (fun _ => false) (fun _ => false) now st0).1.trace =
      [10, 10, 5] := by
  rw [← scanPrep_snd d st0] at hlen25 hok
  have hne : ∀ p ∈ (scanPrep d st0).2, isErr (c p) = false :=
    fun p hp => isErr_false_of_isOk _ (hok p hp)
  obtain ⟨hhalt, hrc, hblen, hsizes⟩ :=
    scanLoop_noerr_clean d c (fun _ => false) (fun _ => false) (scanPrep d st0).2.length
      (fun _ => rfl) (scanPrep d st0).2 0 (scanPrep d st0).1 [] hne (fun _ _ => rfl) rfl
  have hn : (okMds d c (scanPrep d st0).2).length = 25 := by
    rw [okMds_length_of_all_ok d c _ hok]
    exact hlen25
  rw [scanPrep_read_count d st0, hn] at hblen hsizes
  norm_num at hblen hsizes
  rw [insSizes_scanPrep d st0] at hsizes
  have hbne : (scanLoop d c (fun _ => false) (fun _ => false) (scanPrep d st0).2.length
      (scanPrep d st0).2 0 (scanPrep d st0).1 []).2.1 ≠ [] := by
    intro h
    rw [h] at hblen
    simp at hblen
  simp only [dofullScan]
  simp only [hhalt, Bool.false_eq_true, if_false]
  rw [if_pos hbne]
  simp only [commitMetadataList, Bool.false_eq_true, false_and, if_false, ne_eq]
  simp only [insSizes_append, hsizes, hblen]
  simp [insSizes, List.replicate]

/-- Witness for C5: a scan over 25 concrete new files, all extracted
successfully, issues bulk inserts of sizes 10, 10, 5. -/
theorem c5_batch_boundary_25_witness :
    ((createAddRemoveLists diskTwentyFive initState.catalog).1.length = 25 ∧
     (∀ p ∈ (createAddRemoveLists diskTwentyFive initState.catalog).1,
        isOk (alwaysOk p) = true)) ∧
    insSizes (dofullScan diskTwentyFive alwaysOk (fun _ => false) (fun _ => false) 7
      initState).1.trace = [10, 10, 5] :=
  ⟨⟨by decide, by decide⟩,
   c5_batch_boundary_25 diskTwentyFive alwaysOk 7 initState (by decide) (by decide)⟩

/-- Counterexample to C4: over twenty new comics where extraction of the
tenth (`f9`) raises after the recognition step, the commit check at the
`read_count = 10` boundary is skipped by the exception, and the next
boundary commits a 19-entry batch — more than the batch threshold 10. -/
theorem c4_oversized_batch_counterexample :
    insSizes (dofullScan diskTwenty errAtF9 (fun _ => false) (fun _ => false) 7
      initState).1.trace = [19] ∧ 10 < 19 := by
  constructor
  · decide
  · decide

/-- C4 (amended): in a `dofullScan` where no per-file extraction raises
(and bulk inserts do not fail), every bulk-insert call made to the
Catalog carries at most 10 metadata entries — for every cancellation
behaviour of the quit flag. -/
theorem c4_bulk_insert_at_most_ten (d : Disk) (c : String → FileOutcome)
    (qF : Nat → Bool) (now : Nat) (st0 : ScanState)
    (hne : ∀ p ∈ (createAddRemoveLists d st0.catalog).1, isErr (c p) = false) :
    ∀ sz ∈ insSizes (dofullScan d c qF (fun _ => false) now st0).1.trace, sz ≤ 10 := by
  rw [← scanPrep_snd d st0] at hne
  by_cases hex : ∃ j, qF j = true ∧ j < (scanPrep d st0).2.length
  · have hex' : ∃ j, qF j = true := ⟨hex.choose, hex.choose_spec.1⟩
    have hq0 : qF (Nat.find hex') = true := Nat.find_spec hex'
    have hj0 : Nat.find hex' < (scanPrep d st0).2.length :=
      lt_of_le_of_lt (Nat.find_min' hex' hex.choose_spec.1) hex.choose_spec.2
    have hqmin : ∀ j, j < Nat.find hex' → qF (0 + j) = false := by
      intro j hj
      rw [Nat.zero_add]
      have hnt := Nat.find_min hex' hj
      simpa using hnt
    obtain ⟨g1, g2, g3, g4⟩ :=
      scanLoop_noerr_halt d c qF (fun _ => false) (scanPrep d st0).2.length
        (fun _ => rfl) (scanPrep d st0).2 (Nat.find hex') 0 (scanPrep d st0).1 []
        hne hqmin (by rw [Nat.zero_add]; exact hq0) hj0 rfl
    simp only [dofullScan]
    simp only [g1, eq_self_iff_true, if_true]
    intro sz hsz
    rw [g4, insSizes_scanPrep d st0] at hsz
    simp only [List.nil_append] at hsz
    have := List.eq_of_mem_replicate hsz
    omega
  · have hq : ∀ j, j < (scanPrep d st0).2.length → qF (0 + j) = false := by
      intro j hj
      rw [Nat.zero_add]
      by_cases hqj : qF j = true
      · exact absurd ⟨j, hqj, hj⟩ hex
      · simpa using hqj
    obtain ⟨hhalt, hrc, hblen, hsizes⟩ :=
      scanLoop_noerr_clean d c qF (fun _ => false) (scanPrep d st0).2.length
        (fun _ => rfl) (scanPrep d st0).2 0 (scanPrep d st0).1 [] hne hq rfl
    have hb9 : (scanLoop d c qF (fun _ => false) (scanPrep d st0).2.length
        (scanPrep d st0).2 0 (scanPrep d st0).1 []).2.1.length ≤ 9 := by
      rw [hblen]
      omega
    have hloop : ∀ sz ∈ insSizes (scanLoop d c qF (fun _ => false)
        (scanPrep d st0).2.length (scanPrep d st0).2 0 (scanPrep d st0).1 []).1.trace,
        sz ≤ 10 := by
      intro sz hsz
      rw [hsizes, insSizes_scanPrep d st0] at hsz
      simp only [List.nil_append] at hsz
      have := List.eq_of_mem_replicate hsz
      omega
    simp only [dofullScan]
    simp only [hhalt, Bool.false_eq_true, if_false]
    by_cases hbne : (scanLoop d c qF (fun _ => false) (scanPrep d st0).2.length
        (scanPrep d st0).2 0 (scanPrep d st0).1 []).2.1 ≠ []
    · rw [if_pos hbne]
      split <;>
        · dsimp only
          intro sz hsz
          rcases commitMetadataList_sizes (fun _ => false) (qF (scanPrep d st0).2.length)
            ((scanLoop d c qF (fun _ => false) (scanPrep d st0).2.length
              (scanPrep d st0).2 0 (scanPrep d st0).1 []).2.1)
            ((scanLoop d c qF (fun _ => false) (scanPrep d st0).2.length
              (scanPrep d st0).2 0 (scanPrep d st0).1 []).1) with hcs | hcs
          · rw [hcs] at hsz
            exact hloop sz hsz
          · rw [hcs] at hsz
            rcases List.mem_append.mp hsz with h | h
            · exact hloop sz h
            · simp only [List.mem_singleton] at h
              omega
    · rw [if_neg hbne]
      split <;>
        · dsimp only
          intro sz hsz
          exact hloop sz hsz

/-- Witness for C4 (amended): an error-free scan over 25 files issues
only bulk inserts of at most 10 entries. -/
theorem c4_bulk_insert_at_most_ten_witness :
    (∀ p ∈ (createAddRemoveLists diskTwentyFive initState.catalog).1,
       isErr (alwaysOk p) = false) ∧
    ∀ sz ∈ insSizes (dofullScan diskTwentyFive alwaysOk (fun _ => false)
      (fun _ => false) 7 initState).1.trace, sz ≤ 10 :=
  ⟨by decide,
   c4_bulk_insert_at_most_ten diskTwentyFive alwaysOk (fun _ => false) 7 initState
     (by decide)⟩

/-- Counterexample to C6: with the stop flag set from before the scan
starts but every file raising an extraction exception, the per-file
exception handler jumps past the cancellation checkpoint: both files
are still processed and the scan runs to completion instead of halting
within the current file's processing time. -/
theorem c6_quit_ignored_on_error_counterexample :
    (dofullScan diskTwoFiles alwaysComicErr (fun _ => true) (fun _ => false) 9
      initState).2 = ScanOutcome.completed ∧
    (dofullScan diskTwoFiles alwaysComicErr (fun _ => true) (fun _ => false) 9
      initState).1.classified = ["a", "b"] := by
  decide

/-- C6 (amended): provided no per-file extraction raises an exception
(and bulk inserts do not fail), setting the stop flag halts the scan at
the cancellation checkpoint of the current candidate file: with the
flag first observed true at file index `j0`, `dofullScan` returns
halted having classified exactly the candidate files up to and
including `j0`; the Catalog keeps the post-delete records plus exactly
the batches committed before the halt — a whole multiple of 10 records
— and no record of the in-progress uncommitted buffer is inserted. -/
theorem c6_cancel_keeps_committed_batches (d : Disk) (c : String → FileOutcome)
    (qF : Nat → Bool) (now : Nat) (st0 : ScanState) (j0 : Nat)
    (hne : ∀ p ∈ (createAddRemoveLists d st0.catalog).1, isErr (c p) = false)
    (hq0 : qF j0 = true)
    (hqmin : ∀ j, j < j0 → qF j = false)
    (hj0 : j0 < (createAddRemoveLists d st0.catalog).1.length) :
    (dofullScan d c qF (fun _ => false) now st0).2 = ScanOutcome.halted ∧
    (dofullScan d c qF (fun _ => false) now st0).1.classified =
      (createAddRemoveLists d st0.catalog).1.take (j0 + 1) ∧
    ∃ k, k % 10 = 0 ∧
      (dofullScan d c qF (fun _ => false) now st0).1.catalog =
        (scanPrep d st0).1.catalog ++ assignIds st0.nextId
          ((okMds d c ((createAddRemoveLists d st0.catalog).1.take (j0 + 1))).take k) := by
  rw [← scanPrep_snd d st0] at hne hj0
  obtain ⟨g1, g2, g3, g4⟩ :=
    scanLoop_noerr_halt d c qF (fun _ => false) (scanPrep d st0).2.length
      (fun _ => rfl) (scanPrep d st0).2 j0 0 (scanPrep d st0).1 [] hne
      (by intro j hj; rw [Nat.zero_add]; exact hqmin j hj)
      (by rw [Nat.zero_add]; exact hq0) hj0 rfl
  simp only [dofullScan]
  simp only [g1, eq_self_iff_true, if_true]
  refine ⟨by trivial, ?_, ?_⟩
  · rw [g2, scanPrep_classified d st0, List.nil_append, scanPrep_snd d st0]
  · rw [g3, scanPrep_nextId d st0]
    simp only [List.nil_append]
    rw [scanPrep_snd d st0]
    exact ⟨_, by omega, rfl⟩

/-- Witness for C6 (amended): a three-file scan with the flag observed
true from the second candidate file halts after classifying two files,
with no record inserted (zero is a whole number of batches). -/
theorem c6_cancel_keeps_committed_batches_witness :
    ((∀ p ∈ (createAddRemoveLists diskThree initState.catalog).1,
        isErr (alwaysOk p) = false) ∧
     quitAfterOne 1 = true ∧
     1 < (createAddRemoveLists diskThree initState.catalog).1.length) ∧
    ((dofullScan diskThree alwaysOk quitAfterOne (fun _ => false) 9 initState).2 =
        ScanOutcome.halted ∧
      (dofullScan diskThree alwaysOk quitAfterOne (fun _ => false) 9
          initState).1.classified =
        (createAddRemoveLists diskThree initState.catalog).1.take (1 + 1) ∧
      ∃ k, k % 10 = 0 ∧
        (dofullScan diskThree alwaysOk quitAfterOne (fun _ => false) 9
            initState).1.catalog =
          (scanPrep diskThree initState).1.catalog ++ assignIds initState.nextId
            ((okMds diskThree alwaysOk
              ((createAddRemoveLists diskThree initState.catalog).1.take (1 + 1))).take k)) :=
  ⟨⟨by decide, by decide, by decide⟩,
   c6_cancel_keeps_committed_batches diskThree alwaysOk quitAfterOne 9 initState 1
     (by decide) (by decide)
     (by
       intro j hj
       have hj0 : j = 0 := by omega
       subst hj0
       decide)
     (by decide)⟩

/-- Witness for C3: after a clean scan over a Catalog with one stale
record, an immediate second scan makes no Catalog call at all. -/
theorem c3_second_scan_performs_no_catalog_ops_witness :
    ((stateStale.catalog.map CatRec.id).Nodup ∧
     (stateStale.catalog.map CatRec.path).Nodup ∧
     (∀ s ∈ stateStale.catalog, s.id < stateStale.nextId)) ∧
    (dofullScan diskOne alwaysOk (fun _ => false) (fun _ => false) 2
      (dofullScan diskOne alwaysOk (fun _ => false) (fun _ => false) 1
        stateStale).1).1.trace = [] :=
  ⟨⟨by decide, by decide, by decide⟩,
   c3_second_scan_performs_no_catalog_ops diskOne alwaysOk 1 2 stateStale
     (by decide) (by decide) (by decide)⟩

end ComicMonitor
